import Mathlib

/-!
Verification of the archive_r archive-stack cursor and path-hierarchy layer.

The definitions below are a shallow embedding of the repository's C++ code.
Components whose implementation is present in the repository snapshot
(`temp_old_cursor.cc`, `src/system_file_stream.cc`) are translated directly;
components that the snapshot only declares or tests (the path-hierarchy
utilities, the multi-volume stream base, the decoder wrapper base) carry a
doc comment starting `Modelled from the spec:` and follow the specification
text instead.
-/

namespace ArchiveR

/-- Modelled from the spec: ordering tag of a multi-volume part list
(`path_hierarchy.h` is not in the source snapshot).  Natural sorts the
parts at construction, Given preserves caller order. -/
inductive VolumeOrdering where
  | natural
  | given
deriving DecidableEq, Repr

/-- Modelled from the spec: `PathEntry`, the tagged component variant of a
path hierarchy (`path_hierarchy.h` is not in the source snapshot).  A
default-constructed entry behaves as `single ""`. -/
inductive PathEntry where
  | single (value : String)
  | multiVolume (parts : List String) (ordering : VolumeOrdering)
  | nested (children : List PathEntry)
deriving Repr

mutual

/-- Boolean structural equality on path entries. -/
def PathEntry.beq : PathEntry → PathEntry → Bool
  | .single a, .single b => a == b
  | .multiVolume ps o1, .multiVolume qs o2 => ps == qs && o1 == o2
  | .nested as, .nested bs => PathEntry.beqList as bs
  | _, _ => false

/-- Boolean structural equality on lists of path entries. -/
def PathEntry.beqList : List PathEntry → List PathEntry → Bool
  | [], [] => true
  | a :: as, b :: bs => PathEntry.beq a b && PathEntry.beqList as bs
  | _, _ => false

end

instance : BEq PathEntry := ⟨PathEntry.beq⟩

mutual

theorem PathEntry.beq_iff : ∀ a b : PathEntry, PathEntry.beq a b = true ↔ a = b
  | .single a, .single b => by simp [PathEntry.beq]
  | .single _, .multiVolume _ _ => by simp [PathEntry.beq]
  | .single _, .nested _ => by simp [PathEntry.beq]
  | .multiVolume _ _, .single _ => by simp [PathEntry.beq]
  | .multiVolume ps o1, .multiVolume qs o2 => by simp [PathEntry.beq]
  | .multiVolume _ _, .nested _ => by simp [PathEntry.beq]
  | .nested _, .single _ => by simp [PathEntry.beq]
  | .nested _, .multiVolume _ _ => by simp [PathEntry.beq]
  | .nested as, .nested bs => by
    simp only [PathEntry.beq, PathEntry.beqList_iff as bs, PathEntry.nested.injEq]

theorem PathEntry.beqList_iff : ∀ as bs : List PathEntry, PathEntry.beqList as bs = true ↔ as = bs
  | [], [] => by simp [PathEntry.beqList]
  | [], _ :: _ => by simp [PathEntry.beqList]
  | _ :: _, [] => by simp [PathEntry.beqList]
  | a :: as, b :: bs => by
    simp only [PathEntry.beqList, Bool.and_eq_true, PathEntry.beq_iff a b,
      PathEntry.beqList_iff as bs, List.cons.injEq]

end

instance : DecidableEq PathEntry := fun a b =>
  decidable_of_iff (PathEntry.beq a b = true) (PathEntry.beq_iff a b)

/-- Modelled from the spec: `PathHierarchy` is an ordered sequence of
`PathEntry` components; element 0 is the root. -/
abbrev PathHierarchy := List PathEntry

/-- Integer comparison result for strings, in {-1, 0, 1}. -/
def compareStr (a b : String) : Int :=
  if a < b then -1 else if b < a then 1 else 0

/-- Lexicographic comparison of part lists, in {-1, 0, 1}; a list that is a
strict prefix of another is smaller. -/
def compareStrList : List String → List String → Int
  | [], [] => 0
  | [], _ :: _ => -1
  | _ :: _, [] => 1
  | a :: as, b :: bs =>
    if compareStr a b = 0 then compareStrList as bs else compareStr a b

/-- Comparison of ordering tags (they participate in identity). -/
def compareTag : VolumeOrdering → VolumeOrdering → Int
  | .natural, .natural => 0
  | .given, .given => 0
  | .natural, .given => -1
  | .given, .natural => 1

mutual

/-- Modelled from the spec: `compare_entries` from `path_hierarchy_utils`
(not in the source snapshot).  Lexicographic over the part lists, where a
Single carries one part; the component with more parts is greater when the
common prefix matches; ordering tags are part of identity and break ties
between MultiVolume entries with equal part lists; a Single sorts before a
MultiVolume with the identical part list, and Nested groups sort after
both and compare child-wise. -/
def compareEntries : PathEntry → PathEntry → Int
  | .single a, .single b => compareStr a b
  | .single a, .multiVolume ps _ =>
    if compareStrList [a] ps = 0 then -1 else compareStrList [a] ps
  | .multiVolume ps _, .single b =>
    if compareStrList ps [b] = 0 then 1 else compareStrList ps [b]
  | .multiVolume ps o1, .multiVolume qs o2 =>
    if compareStrList ps qs = 0 then compareTag o1 o2 else compareStrList ps qs
  | .nested as, .nested bs => compareEntryList as bs
  | .nested _, _ => 1
  | _, .nested _ => -1

/-- Lexicographic comparison of entry lists. -/
def compareEntryList : List PathEntry → List PathEntry → Int
  | [], [] => 0
  | [], _ :: _ => -1
  | _ :: _, [] => 1
  | a :: as, b :: bs =>
    if compareEntries a b = 0 then compareEntryList as bs else compareEntries a b

end

/-- Modelled from the spec: `compare_hierarchies` is lexicographic over
components. -/
def compare_hierarchies (a b : PathHierarchy) : Int := compareEntryList a b

/-- Modelled from the spec: componentwise hierarchy equality. -/
def hierarchies_equal (a b : PathHierarchy) : Bool := a == b

theorem compareStr_self (a : String) : compareStr a a = 0 := by
  simp [compareStr, lt_irrefl]

theorem compareStr_neg (a b : String) : compareStr a b = -compareStr b a := by
  unfold compareStr
  rcases lt_trichotomy a b with h | h | h
  · simp [h, asymm h]
  · subst h; simp [lt_irrefl]
  · simp [h, asymm h]

theorem compareStr_eq_zero_iff (a b : String) : compareStr a b = 0 ↔ a = b := by
  unfold compareStr
  rcases lt_trichotomy a b with h | h | h
  · simp [h, ne_of_lt h]
  · subst h; simp [lt_irrefl]
  · simp [h, asymm h, (ne_of_lt h).symm]

theorem compareStrList_neg : ∀ as bs : List String, compareStrList as bs = -compareStrList bs as
  | [], [] => by simp [compareStrList]
  | [], _ :: _ => by simp [compareStrList]
  | _ :: _, [] => by simp [compareStrList]
  | a :: as, b :: bs => by
    simp only [compareStrList]
    by_cases h : compareStr b a = 0
    · have h2 : compareStr a b = 0 := by rw [compareStr_neg]; omega
      simp [h, h2, compareStrList_neg as bs]
    · have h2 : compareStr a b ≠ 0 := by rw [compareStr_neg]; omega
      simp [h, h2, compareStr_neg a b]

theorem compareStrList_eq_zero_iff : ∀ as bs : List String, compareStrList as bs = 0 ↔ as = bs
  | [], [] => by simp [compareStrList]
  | [], _ :: _ => by simp [compareStrList]
  | _ :: _, [] => by simp [compareStrList]
  | a :: as, b :: bs => by
    simp only [compareStrList]
    by_cases h : compareStr a b = 0
    · simp [h, compareStrList_eq_zero_iff as bs, (compareStr_eq_zero_iff a b).mp h,
        compareStr_self]
    · have h2 : a ≠ b := fun hh => h ((compareStr_eq_zero_iff a b).mpr hh)
      simp [h, h2]

theorem compareStrList_self (as : List String) : compareStrList as as = 0 :=
  (compareStrList_eq_zero_iff as as).mpr rfl

theorem compareStrList_append : ∀ (as bs : List String), bs ≠ [] → compareStrList as (as ++ bs) = -1
  | [], b :: bs, _ => by simp [compareStrList]
  | [], [], h => absurd rfl h
  | a :: as, bs, h => by
    simpa only [List.cons_append, compareStrList, compareStr_self, if_pos] using
      compareStrList_append as bs h

theorem compareTag_neg (a b : VolumeOrdering) : compareTag a b = -compareTag b a := by
  cases a <;> cases b <;> rfl

theorem compareTag_eq_zero_iff (a b : VolumeOrdering) : compareTag a b = 0 ↔ a = b := by
  cases a <;> cases b <;> simp [compareTag]

mutual

theorem compareEntries_neg : ∀ a b : PathEntry, compareEntries a b = -compareEntries b a
  | .single a, .single b => compareStr_neg a b
  | .single a, .multiVolume ps o => by
    simp only [compareEntries]
    by_cases h : compareStrList ps [a] = 0
    · have h2 : compareStrList [a] ps = 0 := by rw [compareStrList_neg]; omega
      simp [h, h2]
    · have h2 : compareStrList [a] ps ≠ 0 := by rw [compareStrList_neg]; omega
      simp [h, h2, compareStrList_neg [a] ps]
  | .multiVolume ps o, .single b => by
    simp only [compareEntries]
    by_cases h : compareStrList [b] ps = 0
    · have h2 : compareStrList ps [b] = 0 := by rw [compareStrList_neg]; omega
      simp [h, h2]
    · have h2 : compareStrList ps [b] ≠ 0 := by rw [compareStrList_neg]; omega
      simp [h, h2, compareStrList_neg ps [b]]
  | .multiVolume ps o1, .multiVolume qs o2 => by
    simp only [compareEntries]
    by_cases h : compareStrList qs ps = 0
    · have h2 : compareStrList ps qs = 0 := by rw [compareStrList_neg]; omega
      simp [h, h2, compareTag_neg o1 o2]
    · have h2 : compareStrList ps qs ≠ 0 := by rw [compareStrList_neg]; omega
      simp [h, h2, compareStrList_neg ps qs]
  | .single _, .nested _ => by simp [compareEntries]
  | .multiVolume _ _, .nested _ => by simp [compareEntries]
  | .nested _, .single _ => by simp [compareEntries]
  | .nested _, .multiVolume _ _ => by simp [compareEntries]
  | .nested as, .nested bs => by
    simpa only [compareEntries] using compareEntryList_neg as bs

theorem compareEntryList_neg : ∀ as bs : List PathEntry, compareEntryList as bs = -compareEntryList bs as
  | [], [] => by simp [compareEntryList]
  | [], _ :: _ => by simp [compareEntryList]
  | _ :: _, [] => by simp [compareEntryList]
  | a :: as, b :: bs => by
    simp only [compareEntryList]
    by_cases h : compareEntries b a = 0
    · have h2 : compareEntries a b = 0 := by rw [compareEntries_neg]; omega
      simp [h, h2, compareEntryList_neg as bs]
    · have h2 : compareEntries a b ≠ 0 := by rw [compareEntries_neg]; omega
      simp [h, h2, compareEntries_neg a b]

end

mutual

theorem compareEntries_eq_zero_iff : ∀ a b : PathEntry, compareEntries a b = 0 ↔ a = b
  | .single a, .single b => by
    simpa only [compareEntries] using (compareStr_eq_zero_iff a b).trans (by simp)
  | .single a, .multiVolume ps o => by
    simp only [compareEntries]
    by_cases h : compareStrList [a] ps = 0 <;> simp [h]
  | .multiVolume ps o, .single b => by
    simp only [compareEntries]
    by_cases h : compareStrList ps [b] = 0 <;> simp [h]
  | .multiVolume ps o1, .multiVolume qs o2 => by
    simp only [compareEntries]
    by_cases h : compareStrList ps qs = 0
    · simp [h, compareTag_eq_zero_iff o1 o2, (compareStrList_eq_zero_iff ps qs).mp h,
        compareStrList_self]
    · have h2 : ps ≠ qs := fun hh => h ((compareStrList_eq_zero_iff ps qs).mpr hh)
      simp [h, h2]
  | .single _, .nested _ => by simp [compareEntries]
  | .multiVolume _ _, .nested _ => by simp [compareEntries]
  | .nested _, .single _ => by simp [compareEntries]
  | .nested _, .multiVolume _ _ => by simp [compareEntries]
  | .nested as, .nested bs => by
    simp only [compareEntries, compareEntryList_eq_zero_iff as bs, PathEntry.nested.injEq]

theorem compareEntryList_eq_zero_iff : ∀ as bs : List PathEntry, compareEntryList as bs = 0 ↔ as = bs
  | [], [] => by simp [compareEntryList]
  | [], _ :: _ => by simp [compareEntryList]
  | _ :: _, [] => by simp [compareEntryList]
  | a :: as, b :: bs => by
    simp only [compareEntryList]
    by_cases h : compareEntries a b = 0
    · have hb : compareEntries b b = 0 := (compareEntries_eq_zero_iff b b).mpr rfl
      simp [h, hb, compareEntryList_eq_zero_iff as bs, (compareEntries_eq_zero_iff a b).mp h]
    · have h2 : a ≠ b := fun hh => h ((compareEntries_eq_zero_iff a b).mpr hh)
      simp [h, h2]

end

theorem compareEntries_self (a : PathEntry) : compareEntries a a = 0 :=
  (compareEntries_eq_zero_iff a a).mpr rfl

theorem compareEntryList_append : ∀ (as bs : List PathEntry), bs ≠ [] →
    compareEntryList as (as ++ bs) = -1
  | [], b :: bs, _ => by simp [compareEntryList]
  | [], [], h => absurd rfl h
  | a :: as, bs, h => by
    simpa only [List.cons_append, compareEntryList, compareEntries_self, if_pos] using
      compareEntryList_append as bs h

/-- Modelled from the spec: the part list carried by an entry (a Single has
one part, a default entry behaves as `single ""`; a Nested group has no
volume parts). -/
def path_entry_parts : PathEntry → List String
  | .single s => [s]
  | .multiVolume ps _ => ps
  | .nested _ => []

/-- Modelled from the spec: the `single_value` accessor of a Single entry
(`path_hierarchy.h` is not in the source snapshot). -/
def single_value : PathEntry → String
  | .single s => s
  | _ => ""

/-- Modelled from the spec: `make_single(string)` builds a one-element
hierarchy. -/
def make_single_path (s : String) : PathHierarchy := [PathEntry.single s]

/-- Modelled from the spec: `append_single(h, string)`. -/
def append_single (h : PathHierarchy) (s : String) : PathHierarchy :=
  h ++ [PathEntry.single s]

/-- Modelled from the spec: `prefix_until(h, k)` returns components
`[0..=k]`, or empty when `k` is out of range. -/
def pathhierarchy_prefix_until (h : PathHierarchy) (k : Nat) : PathHierarchy :=
  if k < h.length then h.take (k + 1) else []

/-- Modelled from the spec: `select_single_part(h, i)` replaces the tail by
Single of its i-th part, preserving depth. -/
def pathhierarchy_select_single_part (h : PathHierarchy) (i : Nat) : PathHierarchy :=
  match h.getLast? with
  | none => []
  | some tail => h.dropLast ++ [PathEntry.single (((path_entry_parts tail).get? i).getD "")]

/-- Modelled from the spec: the tail component's value when the hierarchy
ends in a Single entry. -/
def tailSingleValue (h : PathHierarchy) : Option String :=
  match h.getLast? with
  | some (.single s) => some s
  | _ => none

/-- Modelled from the spec: `merge_multi_volume_sources` (its
implementation in `path_hierarchy_utils.cc` is not in the source
snapshot).  A one-element list merges to its element; a longer list whose
hierarchies share identical components except at the last position, where
every tail is a Single, merges to the common prefix plus a synthetic
MultiVolume tail holding the tails in input order with ordering tag Given;
every other input yields the empty hierarchy. -/
def merge_multi_volume_sources (hs : List PathHierarchy) : PathHierarchy :=
  match hs with
  | [] => []
  | [h] => h
  | h :: _ =>
    if h.isEmpty then []
    else if hs.all fun g =>
        g.length == h.length && decide (g.dropLast = h.dropLast) &&
          (tailSingleValue g).isSome then
      h.dropLast ++ [PathEntry.multiVolume (hs.filterMap tailSingleValue) .given]
    else []

theorem tailSingleValue_isSome_iff (g : PathHierarchy) :
    (tailSingleValue g).isSome = true ↔ ∃ s, g.getLast? = some (.single s) := by
  unfold tailSingleValue
  rcases hr : g.getLast? with _ | e
  · simp
  · cases e <;> simp

/-- The Boolean mergeability test coincides with its propositional form. -/
theorem merge_cond_iff (h : PathHierarchy) (hs : List PathHierarchy) :
    (hs.all fun g =>
      g.length == h.length && decide (g.dropLast = h.dropLast) &&
        (tailSingleValue g).isSome) = true ↔
    ∀ g ∈ hs, g.length = h.length ∧ g.dropLast = h.dropLast ∧
      ∃ s, g.getLast? = some (.single s) := by
  rw [List.all_eq_true]
  refine forall_congr' fun g => forall_congr' fun _ => ?_
  rw [Bool.and_eq_true, Bool.and_eq_true, beq_iff_eq, decide_eq_true_iff,
    tailSingleValue_isSome_iff, and_assoc]

/-- C1: the multi-volume merge law.  `merge_multi_volume_sources [h] = h`
for every hierarchy; for two or more hierarchies that are componentwise
identical except at the final position, with every tail a Single, the
result keeps the length of the first input, keeps the common prefix, and
ends in a MultiVolume holding the tails in input order; every other input
(the empty list, mismatched lengths, non-Single tails, differences before
the last position) merges to the empty hierarchy. -/
theorem C1_merge_multi_volume_sources_law :
    (∀ h : PathHierarchy, merge_multi_volume_sources [h] = h) ∧
    (∀ (h : PathHierarchy) (rest : List PathHierarchy), rest ≠ [] → h ≠ [] →
      (∀ g ∈ h :: rest, g.length = h.length ∧ g.dropLast = h.dropLast ∧
        ∃ s, g.getLast? = some (.single s)) →
      merge_multi_volume_sources (h :: rest) =
        h.dropLast ++
          [PathEntry.multiVolume ((h :: rest).filterMap tailSingleValue) .given] ∧
      (merge_multi_volume_sources (h :: rest)).length = h.length) ∧
    merge_multi_volume_sources [] = [] ∧
    (∀ (h : PathHierarchy) (rest : List PathHierarchy), rest ≠ [] →
      ¬(h ≠ [] ∧ ∀ g ∈ h :: rest, g.length = h.length ∧ g.dropLast = h.dropLast ∧
        ∃ s, g.getLast? = some (.single s)) →
      merge_multi_volume_sources (h :: rest) = []) := by
  refine ⟨fun h => rfl, ?_, rfl, ?_⟩
  · intro h rest hrest hne hall
    obtain ⟨r, rest', rfl⟩ : ∃ r rest', rest = r :: rest' := by
      cases rest with
      | nil => exact absurd rfl hrest
      | cons r rest' => exact ⟨r, rest', rfl⟩
    have hcond := (merge_cond_iff h (h :: r :: rest')).mpr hall
    have hempty : h.isEmpty = false := by
      cases h with
      | nil => exact absurd rfl hne
      | cons _ _ => rfl
    have hmerge : merge_multi_volume_sources (h :: r :: rest') =
        h.dropLast ++
          [PathEntry.multiVolume ((h :: r :: rest').filterMap tailSingleValue) .given] := by
      simp only [merge_multi_volume_sources, hempty, Bool.false_eq_true, if_false, hcond,
        if_true]
    refine ⟨hmerge, ?_⟩
    rw [hmerge]
    have : h.length ≠ 0 := by simpa using hne
    simp [List.length_dropLast]
    omega
  · intro h rest hrest hno
    obtain ⟨r, rest', rfl⟩ : ∃ r rest', rest = r :: rest' := by
      cases rest with
      | nil => exact absurd rfl hrest
      | cons r rest' => exact ⟨r, rest', rfl⟩
    by_cases hne : h = []
    · subst hne
      simp [merge_multi_volume_sources]
    · have hcond : ¬∀ g ∈ h :: r :: rest', g.length = h.length ∧ g.dropLast = h.dropLast ∧
          ∃ s, g.getLast? = some (.single s) := fun hall => hno ⟨hne, hall⟩
      have hcond' := (merge_cond_iff h (h :: r :: rest')).not.mpr hcond
      have hempty : h.isEmpty = false := by
        cases h with
        | nil => exact absurd rfl hne
        | cons _ _ => rfl
      simp only [merge_multi_volume_sources, hempty, Bool.false_eq_true, if_false,
        eq_false_of_ne_true hcond', if_false]

/-- C1 witness: the merge law evaluated at concrete inputs — a one-element
merge returns its input; two hierarchies differing only in their Single
tails merge to the common prefix plus a MultiVolume of the two tails. -/
theorem C1_merge_multi_volume_sources_law_witness :
    merge_multi_volume_sources [[PathEntry.single "outer.tar.gz", PathEntry.single "a.part1"]] =
      [PathEntry.single "outer.tar.gz", PathEntry.single "a.part1"] ∧
    merge_multi_volume_sources
        [[PathEntry.single "outer.tar.gz", PathEntry.single "a.part1"],
         [PathEntry.single "outer.tar.gz", PathEntry.single "a.part2"]] =
      [PathEntry.single "outer.tar.gz",
       PathEntry.multiVolume ["a.part1", "a.part2"] .given] ∧
    merge_multi_volume_sources
        [[PathEntry.single "outer.tar.gz", PathEntry.single "a.part1"],
         [PathEntry.single "outer.tar.gz"]] = [] := by
  refine ⟨C1_merge_multi_volume_sources_law.1 _, ?_, ?_⟩
  · have h := (C1_merge_multi_volume_sources_law.2.1
      [PathEntry.single "outer.tar.gz", PathEntry.single "a.part1"]
      [[PathEntry.single "outer.tar.gz", PathEntry.single "a.part2"]]
      (by decide) (by decide)
      (by
        intro g hg
        simp only [List.mem_cons, List.not_mem_nil, or_false] at hg
        rcases hg with rfl | rfl
        · exact ⟨rfl, rfl, "a.part1", rfl⟩
        · exact ⟨rfl, rfl, "a.part2", rfl⟩)).1
    simpa using h
  · exact C1_merge_multi_volume_sources_law.2.2.2
      [PathEntry.single "outer.tar.gz", PathEntry.single "a.part1"]
      [[PathEntry.single "outer.tar.gz"]] (by decide)
      (by
        rintro ⟨-, hall⟩
        have h1 := hall [PathEntry.single "outer.tar.gz"] (by simp)
        exact absurd h1.1 (by decide))

/-- C5: hierarchy comparison is reflexive-zero, antisymmetric, compatible
with equality; a hierarchy that is a strict prefix of another is smaller;
a MultiVolume component with more parts is greater than one with fewer
when the common prefix matches; identical part lists with different
ordering tags compare nonzero. -/
theorem C5_compare_hierarchies_order :
    (∀ h : PathHierarchy, compare_hierarchies h h = 0) ∧
    (∀ a b : PathHierarchy, compare_hierarchies a b = -compare_hierarchies b a) ∧
    (∀ a b : PathHierarchy, compare_hierarchies a b = 0 ↔ a = b) ∧
    (∀ g tail : PathHierarchy, tail ≠ [] → compare_hierarchies g (g ++ tail) < 0) ∧
    (∀ (ps qs : List String) (o1 o2 : VolumeOrdering), qs ≠ [] →
      compareEntries (.multiVolume ps o1) (.multiVolume (ps ++ qs) o2) < 0) ∧
    (∀ (ps : List String) (o1 o2 : VolumeOrdering), o1 ≠ o2 →
      compareEntries (.multiVolume ps o1) (.multiVolume ps o2) ≠ 0) := by
  refine ⟨?_, compareEntryList_neg, compareEntryList_eq_zero_iff, ?_, ?_, ?_⟩
  · intro h
    exact (compareEntryList_eq_zero_iff h h).mpr rfl
  · intro g tl htl
    rw [compare_hierarchies, compareEntryList_append g tl htl]
    decide
  · intro ps qs o1 o2 hqs
    have happ := compareStrList_append ps qs hqs
    simp only [compareEntries, happ]
    rw [if_neg (by decide : ¬(-1 : Int) = 0)]
    decide
  · intro ps o1 o2 ho
    simp only [compareEntries, compareStrList_self, if_pos]
    exact fun h => ho ((compareTag_eq_zero_iff o1 o2).mp h)

/-- Exceptions that cross the cursor's interfaces, mirroring the C++
exception kinds thrown in `temp_old_cursor.cc` and
`src/system_file_stream.cc`: EntryFaultError {message, errno, hierarchy},
`std::invalid_argument`, `std::logic_error`, and any other caller-thrown
exception. -/
inductive CppError where
  | entryFault (message : String) (errnoValue : Int) (hierarchy : PathHierarchy)
  | invalidArgument (message : String)
  | logicError (message : String)
  | otherExn (tag : Nat)

mutual

/-- A live data stream (`IDataStream`): allocation identity, self-reported
source hierarchy, current read offset, and concrete variant. -/
inductive DStream where
  | mk (sid : Nat) (source : PathHierarchy) (pos : Nat) (kind : DStreamKind)

/-- The closed set of stream variants the cursor can hold: a stream
produced by the root-stream factory, a `SystemFileStream`, or an
`EntryPayloadStream` holding its parent archive. -/
inductive DStreamKind where
  | custom (tag : Nat)
  | systemFile
  | entryPayload (parent : StreamArchive)

/-- `StreamArchive`: the decoder wrapper around a stream.  The `headers`
list models the sequence of entry names the decoder will still deliver;
`entryName` is `current_entryname`; `contentReady` is
`_current_entry_content_ready`. -/
inductive StreamArchive where
  | mk (stream : DStream) (headers : List String) (entryName : String) (contentReady : Bool)

end

def DStream.sid : DStream → Nat
  | .mk i _ _ _ => i

def DStream.source_hierarchy : DStream → PathHierarchy
  | .mk _ h _ _ => h

def DStream.pos : DStream → Nat
  | .mk _ _ p _ => p

def DStream.kind : DStream → DStreamKind
  | .mk _ _ _ k => k

/-- Reset a stream's read offset to the origin. -/
def DStream.withPos : DStream → Nat → DStream
  | .mk i h _ k, p => .mk i h p k

def StreamArchive.stream : StreamArchive → DStream
  | .mk s _ _ _ => s

def StreamArchive.headers : StreamArchive → List String
  | .mk _ h _ _ => h

def StreamArchive.entryName : StreamArchive → String
  | .mk _ _ n _ => n

def StreamArchive.contentReady : StreamArchive → Bool
  | .mk _ _ _ c => c

/-- `StreamArchive::source_hierarchy` forwards to the wrapped stream. -/
def StreamArchive.source_hierarchy (a : StreamArchive) : PathHierarchy :=
  a.stream.source_hierarchy

/-- `StreamArchive::parent_archive`: the parent archive of the wrapped
stream when that stream is an `EntryPayloadStream`, else null. -/
def StreamArchive.parent_archive (a : StreamArchive) : Option StreamArchive :=
  match a.stream.kind with
  | .entryPayload p => some p
  | _ => none

/-- `ArchiveStackCursor` state: the stream stack (slots may be null) and
the current archive; `nextId` supplies fresh allocation identities. -/
structure CursorState where
  streamStack : List (Option DStream)
  currentArchive : Option StreamArchive
  nextId : Nat

/-- A stream produced by the process-wide root-stream factory. -/
structure FactoryStream where
  tag : Nat
  source : PathHierarchy
  pos : Nat

/-- Behaviour of the world outside the cursor: the root-stream factory
slot, the rewind behaviour of caller-supplied streams, the parent
decoder's `skip_to_entry`, the decoder-open outcome for a stream, and the
byte-level read behaviour of the top stream. -/
structure CursorEnv where
  factory : Option (PathHierarchy → Option FactoryStream)
  customRewind : Nat → Option CppError
  skipToEntry : StreamArchive → String → Bool
  openArchive : DStream → Except CppError (List String)
  readStream : DStream → Int × DStream

/-- `make_entry_fault_error{message, hierarchy, errno}` builds an
EntryFaultError. -/
def make_entry_fault_error (message : String) (hierarchy : PathHierarchy)
    (errnoValue : Int) : CppError :=
  .entryFault message errnoValue hierarchy

/-- The tail component of a hierarchy (`back()`; calling it on an empty
hierarchy is undefined behaviour in C++ and is modelled by the default
entry). -/
def hierBack (h : PathHierarchy) : PathEntry :=
  (h.getLast?).getD (.single "")

/-- `SystemFileStream`'s constructor (src/system_file_stream.cc): rejects
an empty hierarchy and a root entry that is neither Single nor
MultiVolume with `std::invalid_argument`; otherwise the stream starts
idle at the origin. -/
def mkSystemFileStream (st : CursorState) (logical_path : PathHierarchy) :
    Except CppError (DStream × CursorState) :=
  match logical_path with
  | [] => .error (.invalidArgument "Root file hierarchy cannot be empty")
  | e :: _ =>
    match e with
    | .nested _ =>
      .error (.invalidArgument "Root file hierarchy must be a single file or multi-volume source")
    | _ => .ok (⟨st.nextId, logical_path, 0, .systemFile⟩, { st with nextId := st.nextId + 1 })

/-- `ArchiveStackCursor::create_stream` (temp_old_cursor.cc): for a
one-component hierarchy consult the root-stream factory slot and fall
back to a `SystemFileStream`; otherwise build an `EntryPayloadStream`
parented on the current archive (whose constructor rejects a null
parent). -/
def create_stream (env : CursorEnv) (st : CursorState) (hierarchy : PathHierarchy) :
    Except CppError (DStream × CursorState) :=
  if hierarchy.length = 1 then
    match env.factory with
    | some f =>
      match f hierarchy with
      | some d =>
        .ok (⟨st.nextId, d.source, d.pos, .custom d.tag⟩, { st with nextId := st.nextId + 1 })
      | none => mkSystemFileStream st hierarchy
    | none => mkSystemFileStream st hierarchy
  else
    match st.currentArchive with
    | none => .error (.invalidArgument "Invalid parent archive context")
    | some a => .ok (⟨st.nextId, hierarchy, 0, .entryPayload a⟩, { st with nextId := st.nextId + 1 })

/-- Stream rewind over the closed variant set.  A factory stream runs
caller code that may throw; a `SystemFileStream` returns to the idle
origin (its base `MultiVolumeStreamBase::rewind` is not in the source
snapshot and is Modelled from the spec: close the current part and return
to Idle); an `EntryPayloadStream` (temp_old_cursor.cc) additionally skips
the parent decoder to the entry named by the first part and faults when
the parent does not contain it. -/
def streamRewind (env : CursorEnv) (s : DStream) : Except CppError DStream :=
  match s.kind with
  | .custom tag =>
    match env.customRewind tag with
    | some e => .error e
    | none => .ok (s.withPos 0)
  | .systemFile => .ok (s.withPos 0)
  | .entryPayload parent =>
    let firstPart := pathhierarchy_select_single_part s.source_hierarchy 0
    if env.skipToEntry parent (single_value (hierBack firstPart)) then .ok (s.withPos 0)
    else .error (make_entry_fault_error
      "Parent archive does not contain requested stream part" firstPart 0)

/-- Replace the top-of-stack slot (`stream_stack.back() = v`). -/
def setBack (st : CursorState) (slot : Option DStream) : CursorState :=
  { st with streamStack := st.streamStack.dropLast ++ [slot] }

/-- The conditional rewind at the start of `descend`: when there is a
current archive whose entry content is not ready and the pending top
stream exists, rewind that stream. -/
def descendRewindStep (env : CursorEnv) (arch : Option StreamArchive)
    (slot : Option DStream) : Except CppError (Option DStream) :=
  match arch, slot with
  | some a, some s =>
    if a.contentReady = false then (streamRewind env s).map some else .ok (some s)
  | _, _ => .ok slot

/-- `ArchiveStackCursor::descend` (temp_old_cursor.cc): requires a
nonempty stack; rewinds the pending top stream when the current archive's
entry content is not ready; wraps the top stream in a new `StreamArchive`
(null stream rejected; decoder open may fault) and pushes an empty slot. -/
def descend (env : CursorEnv) (st : CursorState) : Except CppError CursorState :=
  match st.streamStack.getLast? with
  | none => .error (.logicError "stream stack is empty")
  | some slot =>
    (descendRewindStep env st.currentArchive slot).bind fun slot2 =>
      match slot2 with
      | none => .error (.invalidArgument "StreamArchive requires a valid data stream")
      | some s =>
        (env.openArchive s).map fun headers =>
          { st with
            streamStack := st.streamStack.dropLast ++ [some s, none],
            currentArchive := some (.mk s headers "" false) }

/-- The state effect of `ArchiveStackCursor::ascend`: pop the top slot and
move to the current archive's parent. -/
def ascendState (st : CursorState) : CursorState :=
  { st with
    streamStack := st.streamStack.dropLast,
    currentArchive := st.currentArchive.bind StreamArchive.parent_archive }

/-- `ArchiveStackCursor::ascend` (temp_old_cursor.cc): false when the
stack is empty, else pop. -/
def ascend (st : CursorState) : Bool × CursorState :=
  if st.streamStack.isEmpty then (false, st) else (true, ascendState st)

/-- `ArchiveStackCursor::current_entry_hierarchy` (temp_old_cursor.cc). -/
def current_entry_hierarchy (st : CursorState) : PathHierarchy :=
  match st.streamStack with
  | [] => []
  | none :: _ => []
  | some front :: _ =>
    match st.currentArchive with
    | some a =>
      if a.entryName = "" then a.source_hierarchy
      else append_single a.source_hierarchy a.entryName
    | none => front.source_hierarchy

/-- `ArchiveStackCursor::read` (temp_old_cursor.cc): zero-length reads
return 0 before any check; an empty stack faults; a negative stream read
faults with the current entry's hierarchy; otherwise the stream's count
is returned.  Dereferencing a null top slot is undefined behaviour in the
C++ and is modelled arbitrarily as a zero read. -/
def cursorRead (env : CursorEnv) (st : CursorState) (len : Nat) :
    Except CppError (Int × CursorState) :=
  if len = 0 then .ok (0, st)
  else if st.streamStack.isEmpty then
    .error (make_entry_fault_error "Stream stack is empty" [] 0)
  else
    match st.streamStack.getLast? with
    | some (some s) =>
      let r := env.readStream s
      if r.1 < 0 then
        .error (make_entry_fault_error "Failed to read from active stream"
          (current_entry_hierarchy st) 0)
      else .ok (r.1, setBack st (some r.2))
    | _ => .ok (0, st)

/-- Modelled from the spec: the decoder's `advance_to_next_header` (the
`Archive` wrapper base is not in the source snapshot): deliver the next
header name, or report end-of-archive. -/
def skip_to_next_header : StreamArchive → Bool × StreamArchive
  | .mk s [] n r => (false, .mk s [] n r)
  | .mk s (h :: rest) _ _ => (true, .mk s rest h true)

/-- The header loop of `ArchiveStackCursor::next` over the decoder's
remaining header names. -/
def nextLoopAux (s : DStream) : List String → String → Bool → Bool × StreamArchive
  | [], n, r => (false, .mk s [] n r)
  | h :: rest, _, _ =>
    if h = "" then nextLoopAux s rest h true
    else (true, .mk s rest h true)

/-- The header loop of `ArchiveStackCursor::next` (temp_old_cursor.cc):
advance the decoder until a header with a non-empty entry name arrives or
the archive ends. -/
def nextLoop (a : StreamArchive) : Bool × StreamArchive :=
  nextLoopAux a.stream a.headers a.entryName a.contentReady

/-- `ArchiveStackCursor::next` (temp_old_cursor.cc): false without a
current archive; otherwise loop past empty-named headers and install the
entry-payload stream for the surviving header as the new top slot. -/
def cursorNext (env : CursorEnv) (st : CursorState) : Except CppError (Bool × CursorState) :=
  match st.currentArchive with
  | none => .ok (false, st)
  | some a =>
    let r := nextLoop a
    let st1 := { st with currentArchive := some r.2 }
    if r.1 then
      (create_stream env st1 (current_entry_hierarchy st1)).map fun p =>
        (true, setBack p.2 (some p.1))
    else .ok (false, st1)

/-- One `ascend()` per iteration, bounded by the stack length (each pop
shortens the stack by one, so the bound makes the counted loop coincide
with the C++ `while` loop). -/
def shrinkAboveFuel (depth : Nat) : Nat → CursorState → CursorState
  | 0, st => st
  | fuel + 1, st =>
    if st.streamStack.length > depth + 1 then shrinkAboveFuel depth fuel (ascendState st)
    else st

/-- The `while (stream_stack.size() > depth + 1) ascend();` loop of
`synchronize_to_hierarchy`. -/
def shrinkAbove (depth : Nat) (st : CursorState) : CursorState :=
  shrinkAboveFuel depth st.streamStack.length st

/-- The defensive `if (stream_stack.size() <= depth) resize(depth + 1)` of
`synchronize_to_hierarchy`; grown slots are null. -/
def padTo (depth : Nat) (st : CursorState) : CursorState :=
  if st.streamStack.length ≤ depth then
    { st with streamStack :=
        st.streamStack ++ List.replicate (depth + 1 - st.streamStack.length) none }
  else st

/-- The initial `if (stream_stack.size() < target.size()) resize(...)` of
`synchronize_to_hierarchy`. -/
def resizeIfShort (st : CursorState) (n : Nat) : CursorState :=
  if st.streamStack.length < n then
    { st with streamStack :=
        st.streamStack ++ List.replicate (n - st.streamStack.length) none }
  else st

/-- Does the slot hold a stream whose source hierarchy equals the given
prefix (the reuse test of `synchronize_to_hierarchy`)? -/
def slotMatches (slot : Option DStream) (pfx : PathHierarchy) : Bool :=
  match slot with
  | some s => hierarchies_equal s.source_hierarchy pfx
  | none => false

/-- The per-depth loop of `ArchiveStackCursor::synchronize_to_hierarchy`
(temp_old_cursor.cc): reuse a matching stream, else shrink the stack to
this depth, create and rewind a fresh stream for the prefix, and descend
unless this is the final component.  The loop runs `depth` from 0 while
`depth < target.length` and each iteration increments `depth`, so a fuel
of `target.length` makes the counted loop coincide with the C++ `for`
loop. -/
def syncFrom (env : CursorEnv) (target : PathHierarchy) :
    Nat → Nat → CursorState → Except CppError CursorState
  | 0, _, st => .ok st
  | fuel + 1, depth, st =>
    if depth < target.length then
      if slotMatches ((st.streamStack.get? depth).join)
          (pathhierarchy_prefix_until target depth) then
        syncFrom env target fuel (depth + 1) st
      else
        let st1 := padTo depth (shrinkAbove depth st)
        (create_stream env st1 (pathhierarchy_prefix_until target depth)).bind fun p =>
          (streamRewind env p.1).bind fun s2 =>
            let st3 := setBack (setBack p.2 (some p.1)) (some s2)
            if depth = target.length - 1 then .ok st3
            else (descend env st3).bind fun st4 => syncFrom env target fuel (depth + 1) st4
    else .ok st

/-- `ArchiveStackCursor::synchronize_to_hierarchy` (temp_old_cursor.cc):
an empty target faults before anything else; otherwise grow the stack to
the target's length and walk the depths. -/
def synchronize_to_hierarchy (env : CursorEnv) (st : CursorState)
    (target : PathHierarchy) : Except CppError CursorState :=
  if target.isEmpty then
    .error (make_entry_fault_error "target hierarchy cannot be empty" [] 0)
  else syncFrom env target target.length 0 (resizeIfShort st target.length)

/-- Behaviour of the stream beneath `StreamArchive`'s decoder callback
bridges (temp_old_cursor.cc): each operation either produces a signed
result or throws (modelled as `.error` with an exception tag). -/
structure BridgeStream where
  readResult : Except Nat Int
  seekResult : Int → Int → Except Nat Int
  tellResult : Except Nat Int

/-- POSIX `SEEK_CUR`. -/
def seekCur : Int := 1

/-- `StreamArchive::read_callback_bridge` (temp_old_cursor.cc): a throwing
read becomes -1; a negative count passes through; otherwise the buffer is
published and the count returned. -/
def read_callback_bridge (s : BridgeStream) : Int :=
  match s.readResult with
  | .error _ => -1
  | .ok n => n

/-- `StreamArchive::seek_callback_bridge` (temp_old_cursor.cc): a throwing
seek becomes -1; otherwise the stream's result is returned. -/
def seek_callback_bridge (s : BridgeStream) (request whence : Int) : Int :=
  match s.seekResult request whence with
  | .error _ => -1
  | .ok r => r

/-- `StreamArchive::skip_callback_bridge` (temp_old_cursor.cc): determine
the position via `tell`, falling back to `seek(0, SEEK_CUR)`; return 0
when the position is undeterminable, when any call throws, or when the
relative seek fails; otherwise the advanced distance. -/
def skip_callback_bridge (s : BridgeStream) (request : Int) : Int :=
  match s.tellResult with
  | .error _ => 0
  | .ok t =>
    match (if t < 0 then s.seekResult 0 seekCur else .ok t) with
    | .error _ => 0
    | .ok current =>
      if current < 0 then 0
      else
        match s.seekResult request seekCur with
        | .error _ => 0
        | .ok result => if result ≥ 0 then result - current else 0

/-- Host filesystem behaviour for `SystemFileStream::open_single_part`:
`fopen` returns a handle or fails, and the errno observed after a failed
`fopen` of each path. -/
structure FopenEnv where
  fopen : String → Option Nat
  errnoValue : String → Int

/-- The fields of `SystemFileStream` touched by `open_single_part`: the
`FILE*` handle and the remembered active path. -/
structure SysFileState where
  handle : Option Nat
  activePath : String

/-- Modelled from the spec: `format_path_errno_error` (the error
utilities are not in the source snapshot); the message carries the
operation, the native path and the errno value. -/
def format_path_errno_error (base path : String) (err : Int) : String :=
  base ++ ": " ++ path ++ " (errno " ++ toString err ++ ")"

/-- `SystemFileStream::open_single_part` (src/system_file_stream.cc):
`fopen` the tail component's native path; on failure throw an
EntryFaultError built from the message, the part hierarchy and the
observed errno, leaving the fields untouched; on success record the
handle and the active path. -/
def open_single_part (env : FopenEnv) (st : SysFileState) (single_part : PathHierarchy) :
    SysFileState × Option CppError :=
  let path := single_value (hierBack single_part)
  match env.fopen path with
  | none =>
    (st, some (make_entry_fault_error
      (format_path_errno_error "Failed to open root file" path (env.errnoValue path))
      single_part (env.errnoValue path)))
  | some h => ({ handle := some h, activePath := path }, none)

/-- A benign environment: no factory, non-throwing rewinds, a parent that
contains every entry, decoders that open to an empty header list, and
streams that read zero bytes. -/
def exEnv : CursorEnv where
  factory := none
  customRewind := fun _ => none
  skipToEntry := fun _ _ => true
  openArchive := fun _ => .ok []
  readStream := fun s => (0, s)

/-- A depth-0 stream whose source disagrees with the example target. -/
def exS0 : DStream := ⟨0, [.single "x"], 0, .systemFile⟩

/-- A depth-1 stream aligned with the example target, read up to offset 5. -/
def exS1 : DStream := ⟨1, [.single "a", .single "b"], 5, .systemFile⟩

/-- The example target hierarchy `a/b`. -/
def exTargetAB : PathHierarchy := [.single "a", .single "b"]

/-- Cursor holding a mismatched depth-0 stream under an aligned depth-1
stream. -/
def exStMixed : CursorState := ⟨[some exS0, some exS1], none, 10⟩

/-- A depth-0 stream aligned with `a`. -/
def exSA : DStream := ⟨2, [.single "a"], 3, .systemFile⟩

/-- Cursor aligned at depth 0 only, with no current archive. -/
def exStShallow : CursorState := ⟨[some exSA], none, 20⟩

/-- Is the outcome an EntryFaultError being thrown? -/
def throwsEntryFault (r : Except CppError CursorState) : Bool :=
  match r with
  | .error (.entryFault _ _ _) => true
  | _ => false

/-- C5 witness: the comparison identities instantiated at concrete
hierarchies and entries. -/
theorem C5_compare_hierarchies_order_witness :
    compare_hierarchies [PathEntry.single "a"] [PathEntry.single "a", PathEntry.single "b"] < 0 ∧
    compareEntries (.multiVolume ["a"] .natural) (.multiVolume ["a", "b"] .natural) < 0 ∧
    compareEntries (.multiVolume ["x"] .natural) (.multiVolume ["x"] .given) ≠ 0 := by
  refine ⟨?_, ?_, ?_⟩
  · exact C5_compare_hierarchies_order.2.2.2.1 [PathEntry.single "a"] [PathEntry.single "b"]
      (by decide)
  · exact C5_compare_hierarchies_order.2.2.2.2.1 ["a"] ["b"] .natural .natural (by decide)
  · exact C5_compare_hierarchies_order.2.2.2.2.2 ["x"] .natural .given (by decide)

/-- C10: `read(buf, 0)` returns 0 and never faults for every cursor
state; the zero-length early return precedes the empty-stack check, so a
zero-byte read succeeds even on an empty stream stack. -/
theorem C10_read_zero_length (env : CursorEnv) (st : CursorState) :
    cursorRead env st 0 = .ok (0, st) := by
  simp [cursorRead]

/-- C4: for `read(buf, n)` with `n > 0`, an empty stream stack faults; a
negative count from the top-of-stack stream faults with the current
entry's hierarchy; otherwise the stream's non-negative count is
returned. -/
theorem C4_read_positive_length (env : CursorEnv) (st : CursorState) (len : Nat)
    (hlen : 0 < len) :
    (st.streamStack = [] →
      cursorRead env st len = .error (.entryFault "Stream stack is empty" 0 [])) ∧
    (∀ s, st.streamStack.getLast? = some (some s) →
      ((env.readStream s).1 < 0 →
        cursorRead env st len =
          .error (.entryFault "Failed to read from active stream" 0
            (current_entry_hierarchy st))) ∧
      (0 ≤ (env.readStream s).1 →
        cursorRead env st len = .ok ((env.readStream s).1, setBack st (some (env.readStream s).2)))) := by
  constructor
  · intro hempty
    unfold cursorRead
    rw [if_neg (by omega)]
    simp [hempty, make_entry_fault_error]
  · intro s hs
    have hne : st.streamStack.isEmpty = false := by
      cases hstack : st.streamStack with
      | nil => rw [hstack] at hs; simp at hs
      | cons a as => simp
    constructor
    · intro hneg
      unfold cursorRead
      rw [if_neg (by omega)]
      simp [hne, hs, hneg, make_entry_fault_error]
    · intro hpos
      unfold cursorRead
      rw [if_neg (by omega)]
      simp only [hne, Bool.false_eq_true, if_false, hs]
      rw [if_neg (by omega)]

/-- C4 witness: the three read outcomes on concrete cursors — empty-stack
fault, negative-read fault, and a successful two-byte read. -/
theorem C4_read_positive_length_witness :
    cursorRead exEnv ⟨[], none, 0⟩ 4 = .error (.entryFault "Stream stack is empty" 0 []) ∧
    cursorRead
        { exEnv with readStream := fun s => (-1, s) } exStShallow 4 =
      .error (.entryFault "Failed to read from active stream" 0 [.single "a"]) ∧
    cursorRead { exEnv with readStream := fun s => (2, s) } exStShallow 4 =
      .ok (2, setBack exStShallow (some exSA)) := by
  refine ⟨?_, ?_, ?_⟩
  · exact (C4_read_positive_length exEnv ⟨[], none, 0⟩ 4 (by decide)).1 rfl
  · exact ((C4_read_positive_length { exEnv with readStream := fun s => (-1, s) }
      exStShallow 4 (by decide)).2 exSA rfl).1 (by decide)
  · exact ((C4_read_positive_length { exEnv with readStream := fun s => (2, s) }
      exStShallow 4 (by decide)).2 exSA rfl).2 (by decide)

/-- C3: stream creation for a one-component hierarchy consults the
process-wide factory slot first and uses its non-null stream; with the
slot unset or returning null the stream is a `SystemFileStream` for the
hierarchy; for longer hierarchies the stream is an `EntryPayloadStream`
parented on the cursor's current archive. -/
theorem C3_create_stream_dispatch (env : CursorEnv) (st : CursorState) (h : PathHierarchy) :
    (∀ f d, h.length = 1 → env.factory = some f → f h = some d →
      create_stream env st h =
        .ok (⟨st.nextId, d.source, d.pos, .custom d.tag⟩, { st with nextId := st.nextId + 1 })) ∧
    (h.length = 1 →
      (env.factory = none ∨ ∃ f, env.factory = some f ∧ f h = none) →
      ∀ s st2, create_stream env st h = .ok (s, st2) →
        s.kind = .systemFile ∧ s.source_hierarchy = h) ∧
    (1 < h.length →
      ∀ s st2, create_stream env st h = .ok (s, st2) →
        ∃ a, st.currentArchive = some a ∧ s.kind = .entryPayload a ∧ s.source_hierarchy = h) := by
  refine ⟨?_, ?_, ?_⟩
  · intro f d hone hf hd
    unfold create_stream
    simp [hone, hf, hd]
  · intro hone hfac s st2 hok
    have hsys : mkSystemFileStream st h = .ok (s, st2) := by
      rcases hfac with hnone | ⟨f, hf, hfn⟩
      · unfold create_stream at hok
        simpa [hone, hnone] using hok
      · unfold create_stream at hok
        simpa [hone, hf, hfn] using hok
    cases h with
    | nil => simp [mkSystemFileStream] at hsys
    | cons e rest =>
      cases e <;> simp [mkSystemFileStream] at hsys <;>
        simp [← hsys.1, DStream.kind, DStream.source_hierarchy]
  · intro hgt s st2 hok
    unfold create_stream at hok
    rw [if_neg (by omega)] at hok
    cases harc : st.currentArchive with
    | none => rw [harc] at hok; simp at hok
    | some a =>
      rw [harc] at hok
      simp only [Except.ok.injEq, Prod.mk.injEq] at hok
      exact ⟨a, rfl, by rw [← hok.1]; rfl, by rw [← hok.1]; rfl⟩

/-- C3 witness: a set factory's stream is used; with no factory the
fallback is a `SystemFileStream`; a two-component hierarchy yields an
`EntryPayloadStream` on the current archive. -/
theorem C3_create_stream_dispatch_witness :
    create_stream
        { exEnv with factory := some fun hh => some ⟨7, hh, 0⟩ } exStShallow [.single "r"] =
      .ok (⟨20, [.single "r"], 0, .custom 7⟩, { exStShallow with nextId := 21 }) ∧
    (∀ s st2,
      create_stream exEnv exStShallow [.single "r"] = .ok (s, st2) →
      s.kind = .systemFile ∧ s.source_hierarchy = [.single "r"]) ∧
    (∀ s st2,
      create_stream exEnv
          { exStShallow with currentArchive := some (.mk exSA [] "" false) }
          exTargetAB = .ok (s, st2) →
      ∃ a, ({ exStShallow with currentArchive := some (.mk exSA [] "" false) } :
          CursorState).currentArchive = some a ∧
        s.kind = .entryPayload a ∧ s.source_hierarchy = exTargetAB) := by
  refine ⟨?_, ?_, ?_⟩
  · exact (C3_create_stream_dispatch
      { exEnv with factory := some fun hh => some ⟨7, hh, 0⟩ } exStShallow
      [.single "r"]).1 _ _ rfl rfl rfl
  · exact fun s st2 => (C3_create_stream_dispatch exEnv exStShallow [.single "r"]).2.1
      rfl (Or.inl rfl) s st2
  · exact fun s st2 => (C3_create_stream_dispatch exEnv
      { exStShallow with currentArchive := some (.mk exSA [] "" false) }
      exTargetAB).2.2 (by decide) s st2

/-- C7: when `fopen` fails, `open_single_part` throws an EntryFaultError
whose message contains the native path and whose errno field carries the
errno observed at the failed `fopen`, and the stream fields are left
untouched (handle still null, active path not set). -/
theorem C7_open_single_part_failure (env : FopenEnv) (st : SysFileState)
    (part : PathHierarchy)
    (hfail : env.fopen (single_value (hierBack part)) = none) :
    open_single_part env st part =
      (st, some (.entryFault
        (format_path_errno_error "Failed to open root file"
          (single_value (hierBack part)) (env.errnoValue (single_value (hierBack part))))
        (env.errnoValue (single_value (hierBack part))) part)) ∧
    ∃ pre post,
      format_path_errno_error "Failed to open root file" (single_value (hierBack part))
          (env.errnoValue (single_value (hierBack part))) =
        pre ++ single_value (hierBack part) ++ post := by
  constructor
  · unfold open_single_part
    simp [hfail, make_entry_fault_error]
  · refine ⟨"Failed to open root file" ++ ": ",
      " (errno " ++ toString (env.errnoValue (single_value (hierBack part))) ++ ")", ?_⟩
    simp only [format_path_errno_error, String.append_assoc]

/-- C7 witness: opening a missing file `/nope` with errno 2 produces the
fault carrying the path and errno, and the state is unchanged. -/
theorem C7_open_single_part_failure_witness :
    open_single_part ⟨fun _ => none, fun _ => 2⟩ ⟨none, ""⟩ [.single "/nope"] =
      (⟨none, ""⟩, some (.entryFault
        (format_path_errno_error "Failed to open root file" "/nope" 2) 2
        [.single "/nope"])) ∧
    ∃ pre post,
      format_path_errno_error "Failed to open root file" "/nope" 2 =
        pre ++ "/nope" ++ post :=
  C7_open_single_part_failure ⟨fun _ => none, fun _ => 2⟩ ⟨none, ""⟩ [.single "/nope"] rfl

/-- C6: the decoder callback bridges never let an exception escape — a
throwing read yields -1 and negative read counts pass through unchanged;
a throwing seek yields -1; skip yields 0 when tell throws, when every
seek throws, or when the position is undeterminable (tell and
`seek(0, SEEK_CUR)` both negative). -/
theorem C6_callback_bridges_contain_exceptions :
    (∀ (s : BridgeStream) (e : Nat), s.readResult = .error e → read_callback_bridge s = -1) ∧
    (∀ (s : BridgeStream) (n : Int), s.readResult = .ok n → n < 0 →
      read_callback_bridge s = n) ∧
    (∀ (s : BridgeStream) (request whence : Int) (e : Nat),
      s.seekResult request whence = .error e → seek_callback_bridge s request whence = -1) ∧
    (∀ (s : BridgeStream) (request : Int) (e : Nat),
      s.tellResult = .error e → skip_callback_bridge s request = 0) ∧
    (∀ (s : BridgeStream) (request : Int),
      (∀ r w, ∃ e, s.seekResult r w = .error e) → skip_callback_bridge s request = 0) ∧
    (∀ (s : BridgeStream) (request t c : Int),
      s.tellResult = .ok t → t < 0 → s.seekResult 0 seekCur = .ok c → c < 0 →
      skip_callback_bridge s request = 0) := by
  refine ⟨?_, ?_, ?_, ?_, ?_, ?_⟩
  · intro s e he
    simp [read_callback_bridge, he]
  · intro s n hn _
    simp [read_callback_bridge, hn]
  · intro s request whence e he
    simp [seek_callback_bridge, he]
  · intro s request e he
    simp [skip_callback_bridge, he]
  · intro s request hseek
    unfold skip_callback_bridge
    cases ht : s.tellResult with
    | error e => rfl
    | ok t =>
      by_cases htneg : t < 0
      · obtain ⟨e, he⟩ := hseek 0 seekCur
        simp [htneg, he]
      · obtain ⟨e, he⟩ := hseek request seekCur
        simp [htneg, he, not_lt.mp htneg, not_lt_of_le (not_lt.mp htneg)]
  · intro s request t c ht htneg hc hcneg
    simp [skip_callback_bridge, ht, htneg, hc, hcneg]

/-- C6 witness: a stream whose read and seek throw gives -1 from the read
and seek bridges; a stream whose position is undeterminable gives 0 from
the skip bridge; a negative read count passes through. -/
theorem C6_callback_bridges_contain_exceptions_witness :
    read_callback_bridge ⟨.error 3, fun _ _ => .error 3, .error 3⟩ = -1 ∧
    read_callback_bridge ⟨.ok (-7), fun _ _ => .ok 0, .ok 0⟩ = -7 ∧
    seek_callback_bridge ⟨.ok 0, fun _ _ => .error 3, .ok 0⟩ 5 0 = -1 ∧
    skip_callback_bridge ⟨.ok 0, fun _ _ => .error 3, .error 3⟩ 5 = 0 ∧
    skip_callback_bridge ⟨.ok 0, fun _ _ => .ok (-1), .ok (-1)⟩ 5 = 0 := by
  refine ⟨?_, ?_, ?_, ?_, ?_⟩
  · exact C6_callback_bridges_contain_exceptions.1 _ 3 rfl
  · exact C6_callback_bridges_contain_exceptions.2.1 _ (-7) rfl (by decide)
  · exact C6_callback_bridges_contain_exceptions.2.2.1 _ 5 0 3 rfl
  · exact C6_callback_bridges_contain_exceptions.2.2.2.1 _ 5 3 rfl
  · exact C6_callback_bridges_contain_exceptions.2.2.2.2.2 _ 5 (-1) (-1) rfl (by decide)
      rfl (by decide)

theorem nextLoopAux_spec (s : DStream) :
    ∀ (hs : List String) (n : String) (r : Bool),
      ((nextLoopAux s hs n r).1 = true → (nextLoopAux s hs n r).2.entryName ≠ "") ∧
      ((nextLoopAux s hs n r).1 = false → (nextLoopAux s hs n r).2.headers = [])
  | [], n, r => by simp [nextLoopAux, StreamArchive.headers]
  | h :: rest, n, r => by
    by_cases hh : h = ""
    · subst hh
      simpa only [nextLoopAux, if_pos rfl] using nextLoopAux_spec s rest "" true
    · simp [nextLoopAux, hh, StreamArchive.entryName]

theorem mkSystemFileStream_preserves_archive (st : CursorState) (h : PathHierarchy)
    (s : DStream) (st2 : CursorState) (hok : mkSystemFileStream st h = .ok (s, st2)) :
    st2.currentArchive = st.currentArchive ∧ st2.streamStack = st.streamStack := by
  cases h with
  | nil => simp [mkSystemFileStream] at hok
  | cons e rest =>
    cases e with
    | nested children => simp [mkSystemFileStream] at hok
    | single v =>
      simp only [mkSystemFileStream, Except.ok.injEq, Prod.mk.injEq] at hok
      simp [← hok.2]
    | multiVolume ps o =>
      simp only [mkSystemFileStream, Except.ok.injEq, Prod.mk.injEq] at hok
      simp [← hok.2]

theorem create_stream_preserves_archive (env : CursorEnv) (st : CursorState)
    (h : PathHierarchy) (s : DStream) (st2 : CursorState)
    (hok : create_stream env st h = .ok (s, st2)) :
    st2.currentArchive = st.currentArchive ∧ st2.streamStack = st.streamStack := by
  unfold create_stream at hok
  split at hok
  · split at hok
    · split at hok
      · simp only [Except.ok.injEq, Prod.mk.injEq] at hok
        simp [← hok.2]
      · exact mkSystemFileStream_preserves_archive _ _ _ _ hok
    · exact mkSystemFileStream_preserves_archive _ _ _ _ hok
  · split at hok
    · simp at hok
    · simp only [Except.ok.injEq, Prod.mk.injEq] at hok
      rename_i harc
      simp [← hok.2, harc]

/-- C9: whenever `next()` returns true the current archive's current
entry name is non-empty — the loop silently passes decoder headers with
empty names — and `next()` returns false only with no current archive or
when the decoder has reached end-of-archive. -/
theorem C9_next_yields_nonempty_entry_name (env : CursorEnv) (st : CursorState)
    (b : Bool) (st2 : CursorState) (hok : cursorNext env st = .ok (b, st2)) :
    (b = true → ∃ a, st2.currentArchive = some a ∧ a.entryName ≠ "") ∧
    (b = false → (st.currentArchive = none ∧ st2 = st) ∨
      ∃ a, st2.currentArchive = some a ∧ a.headers = []) := by
  unfold cursorNext at hok
  cases harc : st.currentArchive with
  | none =>
    rw [harc] at hok
    simp only [Except.ok.injEq, Prod.mk.injEq] at hok
    constructor
    · intro hb; rw [hb] at hok; exact absurd hok.1 (by decide)
    · intro _; exact Or.inl ⟨rfl, hok.2.symm⟩
  | some a =>
    rw [harc] at hok
    dsimp only at hok
    by_cases hfound : (nextLoop a).1 = true
    · rw [if_pos hfound] at hok
      rcases hmap : create_stream env { st with currentArchive := some (nextLoop a).2 }
          (current_entry_hierarchy { st with currentArchive := some (nextLoop a).2 }) with e | p
      · rw [hmap] at hok; simp [Except.map] at hok
      · rw [hmap] at hok
        simp only [Except.map, Except.ok.injEq, Prod.mk.injEq] at hok
        have harc2 := (create_stream_preserves_archive _ _ _ p.1 p.2 hmap).1
        constructor
        · intro _
          refine ⟨(nextLoop a).2, ?_, ?_⟩
          · rw [← hok.2, setBack]
            simpa using harc2
          · exact (nextLoopAux_spec a.stream a.headers a.entryName a.contentReady).1 hfound
        · intro hb; rw [← hok.1] at hb; exact absurd hb (by decide)
    · rw [if_neg hfound] at hok
      simp only [Except.ok.injEq, Prod.mk.injEq] at hok
      constructor
      · intro hb; rw [hb] at hok; exact absurd hok.1 (by decide)
      · intro _
        refine Or.inr ⟨(nextLoop a).2, by rw [← hok.2], ?_⟩
        exact (nextLoopAux_spec a.stream a.headers a.entryName a.contentReady).2
          (by simpa using hfound)

theorem get?_dropLast_append {α : Type} (l tail2 : List α) (j : Nat)
    (hj : j + 1 < l.length) : (l.dropLast ++ tail2).get? j = l.get? j := by
  rw [List.get?_eq_getElem?, List.get?_eq_getElem?, List.getElem?_append,
    if_pos (by rw [List.length_dropLast]; omega), List.dropLast_eq_take,
    List.getElem?_take_of_lt (by omega)]

theorem get?_append_left {α : Type} (l tail2 : List α) (j : Nat)
    (hj : j < l.length) : (l ++ tail2).get? j = l.get? j := by
  rw [List.get?_eq_getElem?, List.get?_eq_getElem?, List.getElem?_append, if_pos hj]

theorem lt_length_of_get?_eq_some {α : Type} {l : List α} {j : Nat} {a : α}
    (h : l.get? j = some a) : j < l.length := by
  rw [List.get?_eq_getElem?] at h
  exact (List.getElem?_eq_some_iff.mp h).1

theorem shrinkAboveFuel_get (depth : Nat) :
    ∀ (fuel : Nat) (st : CursorState) (j : Nat), j ≤ depth →
      j < st.streamStack.length →
      (shrinkAboveFuel depth fuel st).streamStack.get? j = st.streamStack.get? j ∧
      j < (shrinkAboveFuel depth fuel st).streamStack.length
  | 0, st, j => fun _ hj => ⟨rfl, hj⟩
  | fuel + 1, st, j => fun hjd hj => by
    simp only [shrinkAboveFuel]
    by_cases hlen : st.streamStack.length > depth + 1
    · rw [if_pos hlen]
      have hdrop : (ascendState st).streamStack.get? j = st.streamStack.get? j := by
        show st.streamStack.dropLast.get? j = _
        rw [List.dropLast_eq_take, List.get?_eq_getElem?, List.get?_eq_getElem?,
          List.getElem?_take_of_lt (by omega)]
      have hlen2 : j < (ascendState st).streamStack.length := by
        show j < st.streamStack.dropLast.length
        rw [List.length_dropLast]; omega
      have ih := shrinkAboveFuel_get depth fuel (ascendState st) j hjd hlen2
      exact ⟨ih.1.trans hdrop, ih.2⟩
    · rw [if_neg hlen]; exact ⟨rfl, hj⟩

theorem shrinkAbove_get (depth : Nat) (st : CursorState) (j : Nat) (hjd : j ≤ depth)
    (hj : j < st.streamStack.length) :
    (shrinkAbove depth st).streamStack.get? j = st.streamStack.get? j ∧
    j < (shrinkAbove depth st).streamStack.length :=
  shrinkAboveFuel_get depth st.streamStack.length st j hjd hj

theorem padTo_get (depth : Nat) (st : CursorState) (j : Nat)
    (hj : j < st.streamStack.length) :
    (padTo depth st).streamStack.get? j = st.streamStack.get? j ∧
    j < (padTo depth st).streamStack.length := by
  unfold padTo
  by_cases hlen : st.streamStack.length ≤ depth
  · rw [if_pos hlen]
    exact ⟨get?_append_left _ _ j hj, by simp only [List.length_append]; omega⟩
  · rw [if_neg hlen]; exact ⟨rfl, hj⟩

theorem padTo_length (depth : Nat) (st : CursorState) :
    depth < (padTo depth st).streamStack.length := by
  unfold padTo
  by_cases hlen : st.streamStack.length ≤ depth
  · rw [if_pos hlen]
    simp only [List.length_append, List.length_replicate]
    omega
  · rw [if_neg hlen]; omega

theorem setBack_get (st : CursorState) (v : Option DStream) (j : Nat)
    (hj : j + 1 < st.streamStack.length) :
    (setBack st v).streamStack.get? j = st.streamStack.get? j :=
  get?_dropLast_append _ _ j hj

theorem setBack_length (st : CursorState) (v : Option DStream)
    (hne : 0 < st.streamStack.length) :
    (setBack st v).streamStack.length = st.streamStack.length := by
  show (st.streamStack.dropLast ++ [v]).length = _
  rw [List.length_append, List.length_dropLast]
  simp only [List.length_singleton]
  omega

theorem setBack_archive (st : CursorState) (v : Option DStream) :
    (setBack st v).currentArchive = st.currentArchive := rfl

theorem descend_stack_shape (env : CursorEnv) (st st4 : CursorState)
    (hok : descend env st = .ok st4) :
    ∃ s, st4.streamStack = st.streamStack.dropLast ++ [some s, none] := by
  unfold descend at hok
  cases hlast : st.streamStack.getLast? with
  | none => rw [hlast] at hok; exact absurd hok (by simp)
  | some slot =>
    rw [hlast] at hok
    dsimp only at hok
    cases h2 : descendRewindStep env st.currentArchive slot with
    | error e => rw [h2] at hok; simp [Except.bind] at hok
    | ok slot2 =>
      rw [h2] at hok
      simp only [Except.bind] at hok
      cases slot2 with
      | none => simp at hok
      | some s =>
        dsimp only at hok
        cases h3 : env.openArchive s with
        | error e => rw [h3] at hok; simp [Except.map] at hok
        | ok headers =>
          rw [h3] at hok
          simp only [Except.map, Except.ok.injEq] at hok
          exact ⟨s, by rw [← hok]⟩

theorem resizeIfShort_get (st : CursorState) (n j : Nat)
    (hj : j < st.streamStack.length) :
    (resizeIfShort st n).streamStack.get? j = st.streamStack.get? j := by
  unfold resizeIfShort
  by_cases hlen : st.streamStack.length < n
  · rw [if_pos hlen]
    exact get?_append_left _ _ j hj
  · rw [if_neg hlen]

theorem resizeIfShort_eq_self (st : CursorState) (n : Nat)
    (h : n ≤ st.streamStack.length) : resizeIfShort st n = st := by
  unfold resizeIfShort
  rw [if_neg (by omega)]

theorem slotMatches_join_some (o : Option (Option DStream)) (p : PathHierarchy)
    (h : slotMatches o.join p = true) : ∃ s, o = some (some s) := by
  cases o with
  | none => simp [Option.join, slotMatches] at h
  | some oo =>
    cases oo with
    | none => simp [Option.join, slotMatches] at h
    | some s => exact ⟨s, rfl⟩

/-- Slots strictly below the depth at which `syncFrom` starts are never
touched: the loop only shrinks, replaces or grows the stack at the
current depth and above. -/
theorem syncFrom_preserves_below (env : CursorEnv) (target : PathHierarchy) :
    ∀ (fuel depth : Nat) (st st2 : CursorState),
      syncFrom env target fuel depth st = .ok st2 →
      ∀ j, j < depth → j < st.streamStack.length →
        st2.streamStack.get? j = st.streamStack.get? j
  | 0, depth, st, st2, hok, j, hjd, hjl => by
    simp only [syncFrom, Except.ok.injEq] at hok
    rw [← hok]
  | fuel + 1, depth, st, st2, hok, j, hjd, hjl => by
    simp only [syncFrom] at hok
    by_cases hdep : depth < target.length
    · rw [if_pos hdep] at hok
      by_cases hmatch : slotMatches ((st.streamStack.get? depth).join)
          (pathhierarchy_prefix_until target depth) = true
      · rw [if_pos hmatch] at hok
        exact syncFrom_preserves_below env target fuel (depth + 1) st st2 hok j
          (by omega) hjl
      · rw [if_neg hmatch] at hok
        have hsh := shrinkAbove_get depth st j (by omega) hjl
        have hpd := padTo_get depth (shrinkAbove depth st) j hsh.2
        have hst1 : (padTo depth (shrinkAbove depth st)).streamStack.get? j =
            st.streamStack.get? j := hpd.1.trans hsh.1
        have hst1len : depth < (padTo depth (shrinkAbove depth st)).streamStack.length :=
          padTo_length depth (shrinkAbove depth st)
        cases hc : create_stream env (padTo depth (shrinkAbove depth st))
            (pathhierarchy_prefix_until target depth) with
        | error e => rw [hc] at hok; simp [Except.bind] at hok
        | ok p =>
          rw [hc] at hok
          simp only [Except.bind] at hok
          have hpstack := (create_stream_preserves_archive env _ _ p.1 p.2 hc).2
          have hplen : depth < p.2.streamStack.length := by rw [hpstack]; exact hst1len
          have hsb1len : (setBack p.2 (some p.1)).streamStack.length =
              p.2.streamStack.length := setBack_length p.2 (some p.1) (by omega)
          cases hr : streamRewind env p.1 with
          | error e => rw [hr] at hok; simp [Except.bind] at hok
          | ok s2 =>
            rw [hr] at hok
            simp only [Except.bind] at hok
            have hsbget : (setBack (setBack p.2 (some p.1)) (some s2)).streamStack.get? j =
                st.streamStack.get? j := by
              rw [setBack_get _ _ j (by omega), setBack_get _ _ j (by omega), hpstack]
              exact hst1
            have hsblen : (setBack (setBack p.2 (some p.1)) (some s2)).streamStack.length =
                p.2.streamStack.length := by
              rw [setBack_length _ _ (by omega), hsb1len]
            by_cases hlastd : depth = target.length - 1
            · rw [if_pos hlastd] at hok
              simp only [Except.ok.injEq] at hok
              rw [← hok]
              exact hsbget
            · rw [if_neg hlastd] at hok
              cases hd : descend env (setBack (setBack p.2 (some p.1)) (some s2)) with
              | error e => rw [hd] at hok; simp [Except.bind] at hok
              | ok st4 =>
                rw [hd] at hok
                simp only [Except.bind] at hok
                obtain ⟨s, hshape⟩ := descend_stack_shape env _ st4 hd
                have hst4get : st4.streamStack.get? j =
                    st.streamStack.get? j := by
                  rw [hshape, get?_dropLast_append _ _ j (by omega)]
                  exact hsbget
                have hst4len : j < st4.streamStack.length := by
                  rw [hshape, List.length_append, List.length_dropLast]
                  simp only [List.length_cons, List.length_singleton]
                  omega
                have ih := syncFrom_preserves_below env target fuel (depth + 1) st4 st2
                  hok j (by omega) hst4len
                exact ih.trans hst4get
    · rw [if_neg hdep] at hok
      simp only [Except.ok.injEq] at hok
      rw [← hok]

/-- While every depth up to `k` holds a stream matching its target prefix,
the loop takes the reuse branch, so slot `k` is left exactly as it was. -/
theorem syncFrom_reuse_get (env : CursorEnv) (target : PathHierarchy) :
    ∀ (fuel depth : Nat) (st st2 : CursorState) (k : Nat),
      syncFrom env target fuel depth st = .ok st2 →
      depth ≤ k → k < target.length → k < depth + fuel →
      (∀ j, depth ≤ j → j ≤ k →
        slotMatches ((st.streamStack.get? j).join)
          (pathhierarchy_prefix_until target j) = true) →
      st2.streamStack.get? k = st.streamStack.get? k
  | 0, depth, st, st2, k, hok, hdk, hkt, hkf, hall => by
    simp only [syncFrom, Except.ok.injEq] at hok
    rw [← hok]
  | fuel + 1, depth, st, st2, k, hok, hdk, hkt, hkf, hall => by
    have hdep : depth < target.length := by omega
    simp only [syncFrom] at hok
    rw [if_pos hdep, if_pos (hall depth le_rfl hdk)] at hok
    by_cases hdeq : depth = k
    · obtain ⟨s, hslot⟩ := slotMatches_join_some _ _ (hall k (by omega) le_rfl)
      have hklen : k < st.streamStack.length := lt_length_of_get?_eq_some hslot
      subst hdeq
      exact syncFrom_preserves_below env target fuel (depth + 1) st st2 hok depth
        (by omega) hklen
    · exact syncFrom_reuse_get env target fuel (depth + 1) st st2 k hok (by omega) hkt
        (by omega) (fun j h1 h2 => hall j (by omega) h2)

/-- When every depth below the target's length already matches, the whole
loop is reuse and the state is returned unchanged. -/
theorem syncFrom_all_match (env : CursorEnv) (target : PathHierarchy) :
    ∀ (fuel depth : Nat) (st : CursorState),
      (∀ j, depth ≤ j → j < target.length →
        slotMatches ((st.streamStack.get? j).join)
          (pathhierarchy_prefix_until target j) = true) →
      syncFrom env target fuel depth st = .ok st
  | 0, depth, st, hall => rfl
  | fuel + 1, depth, st, hall => by
    simp only [syncFrom]
    by_cases hdep : depth < target.length
    · rw [if_pos hdep, if_pos (hall depth le_rfl hdep)]
      exact syncFrom_all_match env target fuel (depth + 1) st
        (fun j h1 h2 => hall j (by omega) h2)
    · rw [if_neg hdep]

/-- Every exception escaping the loop originates in a stream
construction, a rewind, or a descent. -/
theorem syncFrom_error_source (env : CursorEnv) (target : PathHierarchy) :
    ∀ (fuel depth : Nat) (st : CursorState) (e : CppError),
      syncFrom env target fuel depth st = .error e →
      (∃ st1 d, d < target.length ∧
        create_stream env st1 (pathhierarchy_prefix_until target d) = .error e) ∨
      (∃ s, streamRewind env s = .error e) ∨
      (∃ st3, descend env st3 = .error e)
  | 0, depth, st, e, hok => by simp [syncFrom] at hok
  | fuel + 1, depth, st, e, hok => by
    simp only [syncFrom] at hok
    by_cases hdep : depth < target.length
    · rw [if_pos hdep] at hok
      by_cases hmatch : slotMatches ((st.streamStack.get? depth).join)
          (pathhierarchy_prefix_until target depth) = true
      · rw [if_pos hmatch] at hok
        exact syncFrom_error_source env target fuel (depth + 1) st e hok
      · rw [if_neg hmatch] at hok
        cases hc : create_stream env (padTo depth (shrinkAbove depth st))
            (pathhierarchy_prefix_until target depth) with
        | error e2 =>
          rw [hc] at hok
          simp only [Except.bind, Except.error.injEq] at hok
          exact Or.inl ⟨padTo depth (shrinkAbove depth st), depth, hdep, by rw [hc, hok]⟩
        | ok p =>
          rw [hc] at hok
          simp only [Except.bind] at hok
          cases hr : streamRewind env p.1 with
          | error e2 =>
            rw [hr] at hok
            simp only [Except.bind, Except.error.injEq] at hok
            exact Or.inr (Or.inl ⟨p.1, by rw [hr, hok]⟩)
          | ok s2 =>
            rw [hr] at hok
            simp only [Except.bind] at hok
            by_cases hlastd : depth = target.length - 1
            · rw [if_pos hlastd] at hok
              simp at hok
            · rw [if_neg hlastd] at hok
              cases hd : descend env (setBack (setBack p.2 (some p.1)) (some s2)) with
              | error e2 =>
                rw [hd] at hok
                simp only [Except.bind, Except.error.injEq] at hok
                exact Or.inr (Or.inr ⟨_, by rw [hd, hok]⟩)
              | ok st4 =>
                rw [hd] at hok
                simp only [Except.bind] at hok
                exact syncFrom_error_source env target fuel (depth + 1) st4 e hok
    · rw [if_neg hdep] at hok
      simp at hok

/-- The cursor used by the C9 witness: an archive over stream `a` whose
decoder will deliver an empty-named header and then `f.txt`. -/
def exStNext : CursorState :=
  ⟨[some exSA], some (.mk exSA ["", "f.txt"] "" false), 30⟩

/-- C9 witness: advancing past the empty-named header lands on `f.txt`,
whose name is non-empty. -/
theorem C9_next_yields_nonempty_entry_name_witness :
    ∃ b st2, cursorNext exEnv exStNext = .ok (b, st2) ∧ b = true ∧
      ∃ a, st2.currentArchive = some a ∧ a.entryName ≠ "" := by
  refine ⟨true,
    ⟨[some ⟨30, [.single "a", .single "f.txt"], 0,
        .entryPayload (.mk exSA [] "f.txt" true)⟩],
      some (.mk exSA [] "f.txt" true), 31⟩, rfl, rfl, ?_⟩
  exact (C9_next_yields_nonempty_entry_name exEnv exStNext true _ rfl).1 rfl

/-- Observe the identity and position of the stream stored at a stack
index after a successful synchronize. -/
def syncResultSlot (r : Except CppError CursorState) (i : Nat) :
    Option (Option (Nat × Nat)) :=
  match r with
  | .error _ => none
  | .ok st => some (((st.streamStack.get? i).join).map fun s => (s.sid, s.pos))

/-- C2 counterexample: in `exStMixed` the depth-1 stream (id 1, position
5) matches the target prefix `a/b`, yet because depth 0 mismatches,
synchronize destroys it and installs a freshly created, rewound stream
(id 11, position 0) at depth 1 — so a depth-k match alone does not imply
reuse. -/
theorem C2_sync_reuse_counterexample :
    slotMatches ((exStMixed.streamStack.get? 1).join)
      (pathhierarchy_prefix_until exTargetAB 1) = true ∧
    exS1.sid = 1 ∧ exS1.pos = 5 ∧
    syncResultSlot (synchronize_to_hierarchy exEnv exStMixed exTargetAB) 1 =
      some (some (11, 0)) :=
  ⟨rfl, rfl, rfl, rfl⟩

/-- C2 (amended): synchronize_to_hierarchy reuses the stream at depth k —
creating no stream for that depth and not rewinding the existing one, so
its read position is preserved — whenever every depth j ≤ k holds a
stream whose source hierarchy equals the target prefix at j; in
particular a cursor aligned with the whole target at every depth is left
completely unchanged, so subsequent reads continue where they left
off. -/
theorem C2_sync_reuses_aligned_prefix :
    (∀ (env : CursorEnv) (st : CursorState) (target : PathHierarchy) (k : Nat)
        (st2 : CursorState),
      k < target.length →
      (∀ j, j ≤ k → slotMatches ((st.streamStack.get? j).join)
        (pathhierarchy_prefix_until target j) = true) →
      synchronize_to_hierarchy env st target = .ok st2 →
      st2.streamStack.get? k = st.streamStack.get? k) ∧
    (∀ (env : CursorEnv) (st : CursorState) (target : PathHierarchy),
      target ≠ [] →
      (∀ j, j < target.length → slotMatches ((st.streamStack.get? j).join)
        (pathhierarchy_prefix_until target j) = true) →
      synchronize_to_hierarchy env st target = .ok st) := by
  constructor
  · intro env st target k st2 hkt hall hok
    have hbe : target.isEmpty = false := by
      cases target with
      | nil => simp at hkt
      | cons a b => rfl
    unfold synchronize_to_hierarchy at hok
    simp only [hbe, Bool.false_eq_true, if_false] at hok
    have hlen : ∀ j, j ≤ k → j < st.streamStack.length := by
      intro j hj
      obtain ⟨s, hs⟩ := slotMatches_join_some _ _ (hall j hj)
      exact lt_length_of_get?_eq_some hs
    have hall0 : ∀ j, 0 ≤ j → j ≤ k →
        slotMatches (((resizeIfShort st target.length).streamStack.get? j).join)
          (pathhierarchy_prefix_until target j) = true := by
      intro j _ hj
      rw [resizeIfShort_get st target.length j (hlen j hj)]
      exact hall j hj
    have h1 := syncFrom_reuse_get env target target.length 0
      (resizeIfShort st target.length) st2 k hok (by omega) hkt (by omega) hall0
    rw [h1, resizeIfShort_get st target.length k (hlen k le_rfl)]
  · intro env st target hne hall
    have h0 : 0 < target.length := by
      cases target with
      | nil => exact absurd rfl hne
      | cons a b => simp
    have hlen : target.length ≤ st.streamStack.length := by
      obtain ⟨s, hs⟩ := slotMatches_join_some _ _ (hall (target.length - 1) (by omega))
      have := lt_length_of_get?_eq_some hs
      omega
    have hbe : target.isEmpty = false := by
      cases target with
      | nil => exact absurd rfl hne
      | cons a b => rfl
    unfold synchronize_to_hierarchy
    simp only [hbe, Bool.false_eq_true, if_false]
    rw [resizeIfShort_eq_self st target.length hlen]
    exact syncFrom_all_match env target target.length 0 st (fun j h1 h2 => hall j h2)

/-- C2 witness: a cursor whose only stream is aligned with the target `a`
is left unchanged by a re-synchronize. -/
theorem C2_sync_reuses_aligned_prefix_witness :
    synchronize_to_hierarchy exEnv exStShallow [.single "a"] = .ok exStShallow := by
  have hmatchall : ∀ j, j < ([PathEntry.single "a"] : PathHierarchy).length →
      slotMatches ((exStShallow.streamStack.get? j).join)
        (pathhierarchy_prefix_until [PathEntry.single "a"] j) = true := by
    intro j hj
    have hj1 : j < 1 := by simpa using hj
    have hj0 : j = 0 := by omega
    subst hj0
    rfl
  exact C2_sync_reuses_aligned_prefix.2 exEnv exStShallow [.single "a"] (by decide)
    hmatchall

/-- C8 counterexample: synchronizing `exStShallow` (aligned at depth 0,
no current archive) to `a/b` runs the EntryPayloadStream constructor with
a null parent, whose std::invalid_argument propagates out of
synchronize_to_hierarchy unconverted — not as an EntryFaultError. -/
theorem C8_sync_counterexample :
    synchronize_to_hierarchy exEnv exStShallow exTargetAB =
      .error (.invalidArgument "Invalid parent archive context") ∧
    throwsEntryFault (synchronize_to_hierarchy exEnv exStShallow exTargetAB) = false :=
  ⟨rfl, rfl⟩

/-- C8 (amended): synchronize_to_hierarchy with an empty target always
throws an EntryFaultError before consulting the cursor state; every other
exception it raises is propagated unchanged from a stream construction,
rewind, or descent performed during synchronization — an EntryFaultError
exactly when the underlying throw is one, while a stream constructor's
std::invalid_argument propagates as-is. -/
theorem C8_sync_empty_target_fault_and_propagation :
    (∀ (env : CursorEnv) (st : CursorState),
      synchronize_to_hierarchy env st [] =
        .error (.entryFault "target hierarchy cannot be empty" 0 [])) ∧
    (∀ (env : CursorEnv) (st : CursorState) (target : PathHierarchy) (e : CppError),
      synchronize_to_hierarchy env st target = .error e →
      target = [] ∨
      (∃ st1 d, d < target.length ∧
        create_stream env st1 (pathhierarchy_prefix_until target d) = .error e) ∨
      (∃ s, streamRewind env s = .error e) ∨
      (∃ st3, descend env st3 = .error e)) := by
  constructor
  · intro env st; rfl
  · intro env st target e herr
    by_cases hne : target = []
    · exact Or.inl hne
    · right
      have hbe : target.isEmpty = false := by
        cases target with
        | nil => exact absurd rfl hne
        | cons a b => rfl
      unfold synchronize_to_hierarchy at herr
      simp only [hbe, Bool.false_eq_true, if_false] at herr
      exact syncFrom_error_source env target target.length 0 _ e herr

/-- C8 witness: the empty-target fault on a concrete cursor, and the
propagation conclusion instantiated at the concrete invalid-argument
failure of the C8 counterexample state. -/
theorem C8_sync_empty_target_fault_and_propagation_witness :
    synchronize_to_hierarchy exEnv ⟨[], none, 0⟩ [] =
      .error (.entryFault "target hierarchy cannot be empty" 0 []) ∧
    (exTargetAB = [] ∨
      (∃ st1 d, d < exTargetAB.length ∧
        create_stream exEnv st1 (pathhierarchy_prefix_until exTargetAB d) =
          .error (.invalidArgument "Invalid parent archive context")) ∨
      (∃ s, streamRewind exEnv s =
        .error (.invalidArgument "Invalid parent archive context")) ∨
      (∃ st3, descend exEnv st3 =
        .error (.invalidArgument "Invalid parent archive context"))) :=
  ⟨C8_sync_empty_target_fault_and_propagation.1 exEnv ⟨[], none, 0⟩,
    C8_sync_empty_target_fault_and_propagation.2 exEnv exStShallow exTargetAB _ rfl⟩

end ArchiveR
